import Mathlib

/-!
Verification of the data-analysis engine of the data-paladin repository
(TypeScript source under src/).

Shallow embedding conventions:

* JavaScript numbers are modelled as exact rationals (`ℚ`).  The source
  compares ratios such as `numericCount / cleanCount > 0.8` with IEEE
  doubles; here the literals `0.8`, `0.6`, `0.1`, `0.7` are taken as the
  exact rationals `4/5`, `3/5`, `1/10`, `7/10`, matching the spec text
  (strictly more than 80 percent, etc.).  `NaN` is represented by
  `Option.none` of the relevant coercion, and the value model carries no
  `NaN`/`Infinity` cell values (§6 of the spec: the parser supplies
  scalar-or-null records).
* `Math.sqrt` is `Real.sqrt`, so the correlation functions land in `ℝ`.
* Row cells are the closed variant {string, number, boolean, null,
  undefined}; a row is the ordered list of its (key, value) pairs, as a JS
  object preserves insertion order.  JS object keys are unique; nothing
  below depends on duplicate keys.
* Implementation-defined JS builtins that the claims do not depend on
  (number-to-string formatting, `localeCompare`, `Date` parsing validity)
  are abstracted into a `JSBuiltins` parameter; theorems hold for every
  choice of these builtins.
* The display-only `memoryUsage` byte estimate (`JSON.stringify(rows).length`)
  is omitted from the `Dataset` record: no claim concerns it.
-/

/-- A JavaScript cell value: string, number, boolean, null or undefined. -/
inductive Value where
  | vstr (s : String)
  | vnum (q : ℚ)
  | vbool (b : Bool)
  | vnull
  | vundef
deriving DecidableEq, Repr

open Value

/-- JS truthiness: `null`, `undefined`, `""`, `0` and `false` are falsy. -/
def Value.truthy : Value → Bool
  | vstr s => s ≠ ""
  | vnum q => q ≠ 0
  | vbool b => b
  | vnull => false
  | vundef => false

/-- The JS `a || b` operator: `a` when truthy, else `b`. -/
def jsOr (a b : Value) : Value := if a.truthy then a else b

/-- A cell is missing when it is `null`, `undefined` or the empty string
(the convention used throughout the source). -/
def Value.isMissing (v : Value) : Bool :=
  v = vnull ∨ v = vundef ∨ v = vstr ""

/-- Whitespace for the purposes of JS string trimming and number parsing. -/
def isJSWhitespace (c : Char) : Bool :=
  c = ' ' ∨ c = '\t' ∨ c = '\n' ∨ c = '\r'

/-- Numeric value of a digit string (most significant first). -/
def digitsVal (cs : List Char) : ℕ :=
  cs.foldl (fun a c => 10 * a + (c.toNat - 48)) 0

/-- The JS `Number(string)` coercion, modelled for trimmed decimal literals
with optional sign and fractional part.  The empty (or all-whitespace)
string coerces to `0`; anything else that is not a plain decimal literal is
`NaN`, i.e. `none`.  (Exponent, hex, and `Infinity` forms are outside the
modelled input language.) -/
def jsStrToNum (s : String) : Option ℚ :=
  let cs := ((s.data.dropWhile isJSWhitespace).reverse.dropWhile isJSWhitespace).reverse
  if cs = [] then some 0 else
  let signAndRest : ℚ × List Char :=
    match cs with
    | '-' :: t => (-1, t)
    | '+' :: t => (1, t)
    | _ => (1, cs)
  let sign := signAndRest.1
  let cs := signAndRest.2
  let intPart := cs.takeWhile Char.isDigit
  match cs.dropWhile Char.isDigit with
  | [] => if intPart = [] then none else some (sign * digitsVal intPart)
  | '.' :: frac =>
      if frac.all Char.isDigit ∧ (intPart ≠ [] ∨ frac ≠ []) then
        some (sign * ((digitsVal intPart : ℚ) + (digitsVal frac : ℚ) / 10 ^ frac.length))
      else none
  | _ => none

/-- The JS `Number(v)` coercion on cell values; `none` models `NaN`. -/
def jsToNum : Value → Option ℚ
  | vnum q => some q
  | vbool b => some (if b then 1 else 0)
  | vnull => some 0
  | vundef => none
  | vstr s => jsStrToNum s

/-- The JS `parseFloat` on a string: longest decimal-literal prefix after
leading whitespace; `none` models `NaN`. -/
def parseFloatStr (s : String) : Option ℚ :=
  let cs := s.data.dropWhile isJSWhitespace
  let signAndRest : ℚ × List Char :=
    match cs with
    | '-' :: t => (-1, t)
    | '+' :: t => (1, t)
    | _ => (1, cs)
  let sign := signAndRest.1
  let cs := signAndRest.2
  let intPart := cs.takeWhile Char.isDigit
  match cs.dropWhile Char.isDigit with
  | '.' :: r2 =>
      let frac := r2.takeWhile Char.isDigit
      if intPart = [] ∧ frac = [] then none
      else some (sign * ((digitsVal intPart : ℚ) + (digitsVal frac : ℚ) / 10 ^ frac.length))
  | _ => if intPart = [] then none else some (sign * digitsVal intPart)

/-- The JS `parseFloat(v)` on a cell value (the argument is coerced to a
string first; the string forms of `null`, `undefined`, `true`, `false`
have no numeric prefix, and the string form of a number reparses to it). -/
def parseFloatVal : Value → Option ℚ
  | vnum q => some q
  | vstr s => parseFloatStr s
  | vbool _ => none
  | vnull => none
  | vundef => none

/-- Implementation-defined JS builtins the engine calls but no claim
depends on: number formatting, locale string comparison, and `Date`
parse validity.  All theorems are proved for an arbitrary instance. -/
structure JSBuiltins where
  numToString : ℚ → String
  localeCompare : String → String → Int
  dateValid : Value → Bool

/-- A concrete instance used to instantiate witnesses. -/
def defaultBuiltins : JSBuiltins :=
  { numToString := fun _ => ""
    localeCompare := fun _ _ => 0
    dateValid := fun _ => false }

/-- The JS `String(v)` / `v.toString()` form of a cell value. -/
def jsToString (B : JSBuiltins) : Value → String
  | vstr s => s
  | vnum q => B.numToString q
  | vbool b => if b then "true" else "false"
  | vnull => "null"
  | vundef => "undefined"

/-- A row: the ordered (key, value) pairs of a flat JS record. -/
abbrev Row : Type := List (String × Value)

/-- `row[c]`: the value at key `c`, `undefined` when the key is absent. -/
def getVal (r : Row) (c : String) : Value :=
  match r.find? (fun p => p.1 = c) with
  | some p => p.2
  | none => vundef

/-- `Object.keys(row)` (keys of a JS object are unique by construction). -/
def rowKeys (r : Row) : List String := r.map Prod.fst

/-- The object spread `{...row, [c]: v}`: replaces the value at an existing
key in place, appends the key otherwise. -/
def setCell (r : Row) (c : String) (v : Value) : Row :=
  if r.any (fun p => p.1 = c) then
    r.map (fun p => if p.1 = c then (c, v) else p)
  else
    r ++ [(c, v)]

/-- The four column type tags. -/
inductive DataType where
  | numeric
  | categorical
  | datetime
  | text
deriving DecidableEq, Repr

/-- Number of leading decimal digits of a character list. -/
def digitRun (cs : List Char) : ℕ := (cs.takeWhile Char.isDigit).length

/-- `-` or `/`, the separators of the date-like regex. -/
def isDateSep (c : Char) : Bool := c = '-' ∨ c = '/'

/-- One alternative of the date-like regex at a fixed start position:
`lo1` to `hi1` digits, a separator, 1 to `hi2` digits, a separator, at
least `lo3` digits — since a digit run is maximal before a separator, the
first two groups must be exactly the leading runs, and the final group
only needs `lo3` digits. -/
def dateAltAt (hi1 hi2 lo3 : ℕ) (cs : List Char) : Bool :=
  let k1 := digitRun cs
  if 1 ≤ k1 ∧ k1 ≤ hi1 then
    match cs.drop k1 with
    | c :: rest =>
        isDateSep c ∧
        (let k2 := digitRun rest
         if 1 ≤ k2 ∧ k2 ≤ hi2 then
           match rest.drop k2 with
           | c2 :: rest2 => isDateSep c2 ∧ lo3 ≤ digitRun rest2
           | [] => false
         else false)
    | [] => false
  else false

/-- Unanchored search for the source date-like regex: 1-4 digits,
separator, 1-2 digits, separator, 1-4 digits, or alternatively 1-2 digits,
separator, 1-2 digits, separator, 2-4 digits, where a separator is a dash
or a slash. -/
def dateLikeMatch (s : String) : Bool :=
  s.data.tails.any (fun t => dateAltAt 4 2 1 t || dateAltAt 2 2 2 t)

/-- `detectColumnType` (src/utils/dataUtils.ts and dataAnalysis.ts):
classifies a sequence of raw cell values into one of the four tags. -/
def detectColumnType (B : JSBuiltins) (values : List Value) : DataType :=
  let cleanValues := values.filter (fun v => v ≠ vnull ∧ v ≠ vundef ∧ v ≠ vstr "")
  if cleanValues.length = 0 then .text else
  let numericCount := (cleanValues.filter (fun v => (jsToNum v).isSome)).length
  let numericRatio : ℚ := (numericCount : ℚ) / (cleanValues.length : ℚ)
  if numericRatio > 4/5 then .numeric else
  let dateCount :=
    (cleanValues.filter (fun v => B.dateValid v && dateLikeMatch (jsToString B v))).length
  let dateRatio : ℚ := (dateCount : ℚ) / (cleanValues.length : ℚ)
  if dateRatio > 3/5 then .datetime else
  let uniqueValues := cleanValues.dedup.length
  let uniqueRatio : ℚ := (uniqueValues : ℚ) / (cleanValues.length : ℚ)
  if uniqueRatio < 1/10 ∧ uniqueValues < 20 then .categorical else .text

/-- The claim's reading of the type-detection cascade, with the ratio
thresholds written as exact integer inequalities: `text` when nothing
remains after stripping missing values, else `numeric` when strictly more
than 80 percent of the remaining values parse as finite numbers, else
`datetime` when strictly more than 60 percent are date-like, else
`categorical` when the unique ratio is strictly below 0.1 and the unique
count strictly below 20, else `text`. -/
def detectColumnTypeSpec (B : JSBuiltins) (values : List Value) : DataType :=
  let clean := values.filter (fun v => ¬ v.isMissing)
  let n := clean.length
  if n = 0 then .text else
  let numericCount := (clean.filter (fun v => (jsToNum v).isSome)).length
  if 5 * numericCount > 4 * n then .numeric else
  let dateCount :=
    (clean.filter (fun v => B.dateValid v && dateLikeMatch (jsToString B v))).length
  if 5 * dateCount > 3 * n then .datetime else
  let u := clean.dedup.length
  if 10 * u < n ∧ u < 20 then .categorical else .text

/-- A dataset column: name, detected type, positionally aligned raw values,
missing count and distinct-value count. -/
structure DataColumn where
  name : String
  type : DataType
  values : List Value
  missingCount : ℕ
  uniqueCount : ℕ
deriving DecidableEq, Repr

/-- A dataset (the `memoryUsage` display estimate is omitted, see header). -/
structure Dataset where
  name : String
  rows : List Row
  columns : List DataColumn
  totalRows : ℕ
  totalColumns : ℕ
deriving DecidableEq

/-- `analyzeDataset` (src/utils/dataUtils.ts and dataAnalysis.ts): builds
the `Dataset` aggregate from raw rows and a filename. -/
def analyzeDataset (B : JSBuiltins) (rows : List Row) (filename : String) : Dataset :=
  if rows.length = 0 then
    { name := filename, rows := [], columns := [], totalRows := 0, totalColumns := 0 }
  else
    let columnNames := rowKeys (rows.headD [])
    let columns : List DataColumn := columnNames.map (fun name =>
      let values := rows.map (fun row => getVal row name)
      let type := detectColumnType B values
      let missingCount := (values.filter (fun v => v = vnull ∨ v = vundef ∨ v = vstr "")).length
      let uniqueCount := values.dedup.length
      { name := name, type := type, values := values,
        missingCount := missingCount, uniqueCount := uniqueCount })
    { name := filename, rows := rows, columns := columns,
      totalRows := rows.length, totalColumns := columnNames.length }

/-- Substring test used for the search term and the `contains` operator
(the JS `String.prototype.includes`). -/
def strContains (s sub : String) : Bool :=
  s.data.tails.any (fun t => sub.data.isPrefixOf t)

/-- The filter-rule operators. -/
inductive FilterOp where
  | equals
  | contains
  | not_equals
  | greater
  | less
deriving DecidableEq, Repr

/-- A filter rule; a rule with empty `column` or empty `value` is inert. -/
structure FilterRule where
  column : String
  op : FilterOp
  value : String
deriving DecidableEq, Repr

/-- Search predicate: case-insensitive substring match of the term against
the string form of any field of the row; `null`/`undefined` fields never
match (the optional chain short-circuits to `undefined`, which is falsy). -/
def matchesSearch (B : JSBuiltins) (term : String) (r : Row) : Bool :=
  r.any (fun p =>
    match p.2 with
    | vnull => false
    | vundef => false
    | v => strContains (jsToString B v).toLower term.toLower)

/-- One filter rule evaluated on one row (DataManipulation.tsx lines
46-64): the cell is stringified and lowercased with missing cells becoming
the empty string, and `greater`/`less` parse both sides with `parseFloat`
where a `NaN` on either side makes the comparison false. -/
def evalRule (B : JSBuiltins) (rule : FilterRule) (r : Row) : Bool :=
  let cellValue : String :=
    match getVal r rule.column with
    | vnull => ""
    | vundef => ""
    | v => (jsToString B v).toLower
  let filterValue := rule.value.toLower
  match rule.op with
  | .equals => cellValue = filterValue
  | .contains => strContains cellValue filterValue
  | .not_equals => cellValue ≠ filterValue
  | .greater =>
      match parseFloatStr cellValue, parseFloatStr filterValue with
      | some a, some b => a > b
      | _, _ => false
  | .less =>
      match parseFloatStr cellValue, parseFloatStr filterValue with
      | some a, some b => a < b
      | _, _ => false

/-- One step of the filter pipeline: a rule with empty `column` or empty
`value` is skipped (the source guards with `if (rule.column && rule.value)`). -/
def applyFilterRule (B : JSBuiltins) (rule : FilterRule) (rows : List Row) : List Row :=
  if rule.column ≠ "" ∧ rule.value ≠ "" then rows.filter (evalRule B rule) else rows

/-- Sort direction. -/
inductive SortDir where
  | asc
  | desc
deriving DecidableEq, Repr

/-- The sort comparator (DataManipulation.tsx lines 70-87): equal values
compare to 0; a `null`/`undefined` left side sorts after anything, a
`null`/`undefined` right side before anything, independent of direction;
otherwise a numeric comparison when both sides coerce to numbers, else a
locale string comparison, negated for descending direction. -/
def jsCompare (B : JSBuiltins) (dir : SortDir) (col : String) (a b : Row) : ℚ :=
  let aVal := getVal a col
  let bVal := getVal b col
  if aVal = bVal then 0
  else if aVal = vnull ∨ aVal = vundef then 1
  else if bVal = vnull ∨ bVal = vundef then -1
  else
    match jsToNum aVal, jsToNum bVal with
    | some qa, some qb =>
        let comparison := qa - qb
        if dir = .asc then comparison else -comparison
    | _, _ =>
        let comparison : ℚ :=
          (B.localeCompare (jsToString B aVal) (jsToString B bVal) : ℤ)
        if dir = .asc then comparison else -comparison

/-- Comparator-as-relation for the sort: `a` may come before `b` when the
comparator is nonpositive. -/
def rowLE (B : JSBuiltins) (dir : SortDir) (col : String) (a b : Row) : Bool :=
  jsCompare B dir col a b ≤ 0

/-- Insertion of a row into a sorted-so-far list, mirroring a comparison
sort driven by the comparator. -/
def ordInsertRow (le : Row → Row → Bool) (a : Row) : List Row → List Row
  | [] => [a]
  | b :: l => if le a b then a :: b :: l else b :: ordInsertRow le a l

/-- Comparison sort of the rows (the JS `Array.prototype.sort` with the
comparator above, modelled as a stable insertion sort). -/
def sortJS (le : Row → Row → Bool) : List Row → List Row
  | [] => []
  | a :: l => ordInsertRow le a (sortJS le l)

/-- `data.sort(comparator)` with the source comparator. -/
def sortRows (B : JSBuiltins) (dir : SortDir) (col : String) (rows : List Row) : List Row :=
  sortJS (rowLE B dir col) rows

/-- The query-processor pipeline `filteredAndSortedData`
(DataManipulation.tsx lines 31-91, identically useDataProcessing in
src/unnamed/part_008): search, then the filter rules in list order, then
the sort when the sort column is nonempty. -/
def processData (B : JSBuiltins) (rows : List Row) (searchTerm : String)
    (rules : List FilterRule) (sortColumn : String) (dir : SortDir) : List Row :=
  let data := rows
  let data := if searchTerm ≠ "" then data.filter (matchesSearch B searchTerm) else data
  let data := rules.foldl (fun d rule => applyFilterRule B rule d) data
  if sortColumn ≠ "" then sortRows B dir sortColumn data else data

/-- The `JSON.stringify` dedup key of a row: `JSON.stringify` omits keys
whose value is `undefined`, and otherwise two rows stringify equally
exactly when they agree as ordered key-value lists. -/
def jsonKey (r : Row) : Row := r.filter (fun p => p.2 ≠ vundef)

/-- The seen-set loop of the `remove_duplicates` branch
(DataManipulationPython.tsx lines 433-441): keep a row exactly when its
stringify key has not occurred before. -/
def dedupRowsAux (seen : List Row) : List Row → List Row
  | [] => []
  | r :: rs =>
      if jsonKey r ∈ seen then dedupRowsAux seen rs
      else r :: dedupRowsAux (jsonKey r :: seen) rs

/-- Full-row deduplication keyed by `JSON.stringify`, keeping the first
occurrence. -/
def dedupRows (rows : List Row) : List Row := dedupRowsAux [] rows

/-- Insertion-order frequency tally of string keys (the
`frequency[String(v)] = (frequency[String(v)] || 0) + 1` object). -/
def tallyKeys (ks : List String) : List (String × ℕ) :=
  ks.foldl (fun acc k =>
    if acc.any (fun p => p.1 = k) then
      acc.map (fun p => if p.1 = k then (p.1, p.2 + 1) else p)
    else acc ++ [(k, 1)]) []

/-- First key of maximal count: what `entries.sort((a, b) => b - a)[0]`
yields under a stable descending sort of the insertion-ordered tally. -/
def argmaxFirst : List (String × ℕ) → Option String
  | [] => none
  | p :: l => some ((l.foldl (fun best q => if q.2 > best.2 then q else best) p).1)

/-- The cleaning-operation types modelled here.  Only the operation types
this development's claims concern (`remove_duplicates` and
`handle_missing`) are embedded; the remaining source branches
(`remove_outliers`, `standardize_text`, `convert_types`) are untouched by
every claim. -/
inductive OpType where
  | remove_duplicates
  | handle_missing
deriving DecidableEq, Repr

/-- A cleaning operation.  The source's optional `column`/`method` string
fields are modelled as strings where the empty string stands for an absent
field (the source only tests them for truthiness). -/
structure CleaningOperation where
  type : OpType
  column : String
  method : String
  value : Value
deriving DecidableEq, Repr

/-- `applyOperation` (DataManipulationPython.tsx lines 427-567): the switch
over the operation type followed by the recomputation of the column
metadata from the new row set, carrying each column's type over from the
prior dataset.  In the `mean` branch, when the filtered value list is
empty the source divides 0 by 0 producing `NaN`; the rational model yields
0 there, and the theorems about this branch assume a nonempty value list. -/
def applyOperation (B : JSBuiltins) (dataset : Dataset) (op : CleaningOperation) : Dataset :=
  let newRows : List Row :=
    match op.type with
    | .remove_duplicates => dedupRows dataset.rows
    | .handle_missing =>
      if op.column ≠ "" ∧ op.method ≠ "" then
        match dataset.columns.find? (fun c => c.name = op.column) with
        | none => dataset.rows
        | some column =>
          if op.method = "remove" then
            dataset.rows.filter (fun row =>
              getVal row op.column ≠ vnull ∧ getVal row op.column ≠ vundef ∧
                getVal row op.column ≠ vstr "")
          else if op.method = "fill" then
            dataset.rows.map (fun row =>
              setCell row op.column (jsOr (getVal row op.column) op.value))
          else if op.method = "mean" ∧ column.type = .numeric then
            let values := (column.values.filter (fun v => v ≠ vnull ∧ v ≠ vundef)).filterMap jsToNum
            let mean : ℚ := values.sum / (values.length : ℚ)
            dataset.rows.map (fun row =>
              setCell row op.column (jsOr (getVal row op.column) (vnum mean)))
          else if op.method = "mode" then
            let freq := tallyKeys ((column.values.filter (fun v => ¬ v.isMissing)).map (jsToString B))
            let modeVal : Value :=
              match argmaxFirst freq with
              | some m => vstr m
              | none => vundef
            dataset.rows.map (fun row =>
              setCell row op.column (jsOr (getVal row op.column) modeVal))
          else dataset.rows
      else dataset.rows
  let columnNames := rowKeys (newRows.headD [])
  let newColumns : List DataColumn := columnNames.map (fun name =>
    let values := newRows.map (fun row => getVal row name)
    let missingCount := (values.filter (fun v => v = vnull ∨ v = vundef ∨ v = vstr "")).length
    let uniqueCount := values.dedup.length
    let type : DataType :=
      match dataset.columns.find? (fun c => c.name = name) with
      | some c => c.type
      | none => .text
    { name := name, type := type, values := values,
      missingCount := missingCount, uniqueCount := uniqueCount })
  { name := dataset.name, rows := newRows, columns := newColumns,
    totalRows := newRows.length, totalColumns := newColumns.length }

/-- The record returned by `calculateBasicStats` (src/utils/dataUtils.ts
lines 402-425). -/
structure BasicStats where
  mean : ℚ
  median : ℚ
  variance : ℚ
  min : ℚ
  max : ℚ
  count : ℕ
  std : ℝ

/-- `calculateBasicStats`: `null` for an empty input; otherwise mean,
median over the sorted copy, population variance, standard deviation, and
the sorted extremes. -/
noncomputable def calculateBasicStats (values : List ℚ) : Option BasicStats :=
  if values.length = 0 then none else
  let sorted := List.insertionSort (· ≤ ·) values
  let sum := values.sum
  let mean := sum / (values.length : ℚ)
  let variance := (values.map (fun v => (v - mean) ^ 2)).sum / (values.length : ℚ)
  let std : ℝ := Real.sqrt ((variance : ℚ) : ℝ)
  let median : ℚ :=
    if sorted.length % 2 = 0 then
      (sorted.getD (sorted.length / 2 - 1) 0 + sorted.getD (sorted.length / 2) 0) / 2
    else sorted.getD (sorted.length / 2) 0
  some { mean := mean, median := median, variance := variance,
         min := sorted.getD 0 0, max := sorted.getD (sorted.length - 1) 0,
         count := values.length, std := std }

/-- `calculateCorrelation` (src/utils/dataUtils.ts lines 104-118): 0 when
the lengths differ or the inputs are empty, else the Pearson coefficient
from the aggregate sums, with 0 when the denominator vanishes.  The
indexed reduce `sum + val * y[i]` is the sum over the positional zip since
the lengths agree in this branch. -/
noncomputable def calculateCorrelation (x y : List ℚ) : ℝ :=
  if x.length ≠ y.length ∨ x.length = 0 then 0 else
  let n : ℚ := (x.length : ℚ)
  let sumX := x.sum
  let sumY := y.sum
  let sumXY := ((x.zip y).map (fun p => p.1 * p.2)).sum
  let sumXX := (x.map (fun v => v * v)).sum
  let sumYY := (y.map (fun v => v * v)).sum
  let numerator := n * sumXY - sumX * sumY
  let denominator : ℝ :=
    Real.sqrt (((n * sumXX - sumX * sumX) * (n * sumYY - sumY * sumY) : ℚ) : ℝ)
  if denominator = 0 then 0 else ((numerator : ℚ) : ℝ) / denominator

/-- The valid paired observations of two columns (AdvancedAnalytics.tsx
lines 53-60): rows where both cells `parseFloat` to a non-`NaN` number. -/
def corrPairs (rows : List Row) (c1 c2 : String) : List (ℚ × ℚ) :=
  rows.filterMap (fun row =>
    match parseFloatVal (getVal row c1), parseFloatVal (getVal row c2) with
    | some a, some b => some (a, b)
    | _, _ => none)

/-- Aggregate sum of the first components (`sum1`). -/
def pairSumX (ps : List (ℚ × ℚ)) : ℚ := (ps.map Prod.fst).sum

/-- Aggregate sum of the second components (`sum2`). -/
def pairSumY (ps : List (ℚ × ℚ)) : ℚ := (ps.map Prod.snd).sum

/-- Aggregate sum of squared first components (`sum1Sq`). -/
def pairSumXX (ps : List (ℚ × ℚ)) : ℚ := (ps.map (fun p => p.1 * p.1)).sum

/-- Aggregate sum of squared second components (`sum2Sq`). -/
def pairSumYY (ps : List (ℚ × ℚ)) : ℚ := (ps.map (fun p => p.2 * p.2)).sum

/-- Aggregate sum of products (`sumProducts`). -/
def pairSumXY (ps : List (ℚ × ℚ)) : ℚ := (ps.map (fun p => p.1 * p.2)).sum

/-- The Pearson numerator `n * sumProducts - sum1 * sum2`. -/
def pearsonNum (ps : List (ℚ × ℚ)) : ℚ :=
  (ps.length : ℚ) * pairSumXY ps - pairSumX ps * pairSumY ps

/-- The square of the Pearson denominator,
`(n * sum1Sq - sum1 * sum1) * (n * sum2Sq - sum2 * sum2)`. -/
def pearsonDenSq (ps : List (ℚ × ℚ)) : ℚ :=
  ((ps.length : ℚ) * pairSumXX ps - pairSumX ps * pairSumX ps) *
    ((ps.length : ℚ) * pairSumYY ps - pairSumY ps * pairSumY ps)

/-- The insight type tags. -/
inductive InsightType where
  | correlation
  | trend
  | anomaly
  | distribution
  | pattern
deriving DecidableEq, Repr

/-- An insight (the display-only `title`/`description` strings are
omitted; the `data` payload of a correlation insight is the coefficient). -/
structure Insight where
  type : InsightType
  confidence : ℝ
  columns : List String
  correlation : ℝ

/-- The correlation scan of one column pair (AdvancedAnalytics.tsx lines
53-87): with strictly more than 10 valid pairs and a nonvanishing
denominator, an insight is pushed exactly when the absolute coefficient
exceeds 0.7, with confidence `|r| * 100`. -/
noncomputable def corrInsightFor (rows : List Row) (c1 c2 : String) : Option Insight :=
  let pairs := corrPairs rows c1 c2
  if pairs.length > 10 then
    let numerator := pearsonNum pairs
    let denominator : ℝ := Real.sqrt ((pearsonDenSq pairs : ℚ) : ℝ)
    if denominator ≠ 0 then
      let correlation := ((numerator : ℚ) : ℝ) / denominator
      if |correlation| > 7/10 then
        some { type := .correlation, confidence := |correlation| * 100,
               columns := [c1, c2], correlation := correlation }
      else none
    else none
  else none

/-- The numeric columns of a dataset. -/
def numericColumns (d : Dataset) : List DataColumn :=
  d.columns.filter (fun c => c.type = .numeric)

/-- All ordered pairs `(i, j)` with `i < j`, in the two-nested-loop order
of the source. -/
def columnPairs : List DataColumn → List (DataColumn × DataColumn)
  | [] => []
  | c :: l => l.map (fun c2 => (c, c2)) ++ columnPairs l

/-- The correlation-insight portion of the insight generator
(AdvancedAnalytics.tsx lines 44-90): every unordered pair of numeric
columns, scanned in loop order. -/
noncomputable def correlationInsights (d : Dataset) : List Insight :=
  let numCols := numericColumns d
  if 2 ≤ numCols.length then
    (columnPairs numCols).filterMap (fun p => corrInsightFor d.rows p.1.name p.2.name)
  else []

/-- The sort-column cell of the row is missing in the sort comparator's
sense (`null` or `undefined`; the comparator does not special-case the
empty string). -/
def missingAt (col : String) (r : Row) : Prop :=
  getVal r col = vnull ∨ getVal r col = vundef

/-- Nulls-last: in the list, no row with a missing sort cell appears
before a row with a defined sort cell. -/
def nullsLast (col : String) (l : List Row) : Prop :=
  l.Pairwise (fun a b => missingAt col a → missingAt col b)

/-- Structural-equality full-row deduplication keeping the first
occurrence of each row — the spec-side description of `remove_duplicates`. -/
def dedupKeepFirst : List Row → List Row
  | [] => []
  | r :: rs => r :: dedupKeepFirst (rs.filter (fun x => x ≠ r))
termination_by l => l.length
decreasing_by
  simp only [List.length_cons]
  exact Nat.lt_succ_of_le (List.length_filter_le _ _)

/-- The Pearson numerator of `calculateCorrelation` as a rational. -/
def corrNumQ (x y : List ℚ) : ℚ :=
  (x.length : ℚ) * ((x.zip y).map (fun p => p.1 * p.2)).sum - x.sum * y.sum

/-- The square of the Pearson denominator of `calculateCorrelation` as a
rational (`n` is the common length `x.length`, as in the source). -/
def corrDenSqQ (x y : List ℚ) : ℚ :=
  ((x.length : ℚ) * (x.map (fun v => v * v)).sum - x.sum * x.sum) *
    ((x.length : ℚ) * (y.map (fun v => v * v)).sum - y.sum * y.sum)

/-- Ten rows with two perfectly correlated numeric columns `y = 2 x`:
exactly 10 valid paired observations. -/
def corrRows10 : List Row :=
  [[("x", vnum 1), ("y", vnum 2)], [("x", vnum 2), ("y", vnum 4)],
   [("x", vnum 3), ("y", vnum 6)], [("x", vnum 4), ("y", vnum 8)],
   [("x", vnum 5), ("y", vnum 10)], [("x", vnum 6), ("y", vnum 12)],
   [("x", vnum 7), ("y", vnum 14)], [("x", vnum 8), ("y", vnum 16)],
   [("x", vnum 9), ("y", vnum 18)], [("x", vnum 10), ("y", vnum 20)]]

/-- The dataset holding `corrRows10` with its two numeric columns. -/
def corrDataset : Dataset :=
  { name := "t", rows := corrRows10,
    columns :=
      [{ name := "x", type := .numeric, values := corrRows10.map (fun r => getVal r "x"),
         missingCount := 0, uniqueCount := 10 },
       { name := "y", type := .numeric, values := corrRows10.map (fun r => getVal r "y"),
         missingCount := 0, uniqueCount := 10 }],
    totalRows := 10, totalColumns := 2 }

/-- A one-row dataset input whose only cell holds the defined, non-missing
number 0. -/
def fillRows0 : List Row := [[("a", vnum 0)]]

/-- A numeric column containing an empty-string missing cell, the numbers
2 and 4, and the falsy number 0. -/
def meanRows : List Row :=
  [[("a", vstr "")], [("a", vnum 2)], [("a", vnum 4)], [("a", vnum 0)]]

/-- The dataset holding `meanRows` with its single numeric column. -/
def meanDataset : Dataset :=
  { name := "t", rows := meanRows,
    columns :=
      [{ name := "a", type := .numeric, values := [vstr "", vnum 2, vnum 4, vnum 0],
         missingCount := 1, uniqueCount := 4 }],
    totalRows := 4, totalColumns := 1 }

/-- A one-row dataset with a single text column. -/
def textDataset : Dataset :=
  { name := "t", rows := [[("a", vstr "x")]],
    columns :=
      [{ name := "a", type := .text, values := [vstr "x"],
         missingCount := 0, uniqueCount := 1 }],
    totalRows := 1, totalColumns := 1 }

/-- Three rows containing one exact duplicate. -/
def dupRows : List Row := [[("a", vnum 1)], [("a", vnum 1)], [("a", vnum 2)]]

/-- The dataset holding `dupRows`. -/
def dupDataset : Dataset :=
  { name := "t", rows := dupRows,
    columns :=
      [{ name := "a", type := .numeric, values := [vnum 1, vnum 1, vnum 2],
         missingCount := 0, uniqueCount := 2 }],
    totalRows := 3, totalColumns := 1 }

/-- Eleven rows with two perfectly correlated numeric columns: strictly
more than 10 valid paired observations. -/
def corrRows11 : List Row :=
  corrRows10 ++ [[("x", vnum 11), ("y", vnum 22)]]

/-!  Theorems.  Each claim Cn of the specification review is settled by
one theorem below (plus a closed witness or counterexample where
applicable). -/

/-- C10: a filter rule whose column or value is the empty string is
skipped entirely: the row set after evaluating that rule equals the row
set before it. -/
theorem emptyRule_inert (B : JSBuiltins) (rule : FilterRule) (rows : List Row)
    (h : rule.column = "" ∨ rule.value = "") :
    applyFilterRule B rule rows = rows := by
  unfold applyFilterRule
  rcases h with h | h <;> simp [h]

/-- Witness for `emptyRule_inert` at a concrete rule and row list. -/
theorem emptyRule_inert_witness :
    applyFilterRule defaultBuiltins { column := "", op := .contains, value := "x" }
      [[("a", vnum 1)]] = [[("a", vnum 1)]] :=
  emptyRule_inert defaultBuiltins _ _ (Or.inl rfl)

/-- C9: `analyzeDataset` returns a dataset whose `totalRows` is the input
length, whose `totalColumns` is the key count of the first row and the
column count, whose every column has one value per row, and which is the
zeroed dataset on empty input. -/
theorem analyzeDataset_invariants (B : JSBuiltins) (rows : List Row) (filename : String) :
    (analyzeDataset B rows filename).totalRows = rows.length ∧
    (analyzeDataset B rows filename).totalColumns = (rowKeys (rows.headD [])).length ∧
    (analyzeDataset B rows filename).totalColumns =
      (analyzeDataset B rows filename).columns.length ∧
    (∀ c ∈ (analyzeDataset B rows filename).columns,
      c.values.length = (analyzeDataset B rows filename).totalRows) ∧
    (rows = [] →
      analyzeDataset B rows filename =
        { name := filename, rows := [], columns := [], totalRows := 0, totalColumns := 0 }) := by
  unfold analyzeDataset
  by_cases h : rows.length = 0
  · have hr : rows = [] := List.length_eq_zero.mp h
    subst hr
    simp [rowKeys]
  · have hne : rows ≠ [] := fun hr => h (by simp [hr])
    rw [if_neg h]
    refine ⟨rfl, rfl, by simp, ?_, fun hr => absurd hr hne⟩
    intro c hc
    simp only [List.mem_map] at hc
    obtain ⟨name, _, rfl⟩ := hc
    simp

/-- Witness for `analyzeDataset_invariants`: the empty-input case. -/
theorem analyzeDataset_invariants_witness :
    analyzeDataset defaultBuiltins [] "f" =
      { name := "f", rows := [], columns := [], totalRows := 0, totalColumns := 0 } :=
  (analyzeDataset_invariants defaultBuiltins [] "f").2.2.2.2 rfl

/-- The two phrasings of the missing-value strip select the same values. -/
lemma clean_filter_eq (values : List Value) :
    values.filter (fun v => v ≠ vnull ∧ v ≠ vundef ∧ v ≠ vstr "") =
    values.filter (fun v => ¬ v.isMissing) := by
  apply List.filter_congr
  intro v _
  simp [Value.isMissing]

/-- A strict ratio threshold, cleared of denominators. -/
lemma ratio_gt_iff (a n p q : ℕ) (hn : 0 < n) (hq : 0 < q) :
    ((p : ℚ) / (q : ℚ) < (a : ℚ) / (n : ℚ)) ↔ p * n < q * a := by
  rw [div_lt_div_iff (by exact_mod_cast hq) (by exact_mod_cast hn),
    ← Nat.cast_mul, ← Nat.cast_mul, Nat.cast_lt, Nat.mul_comm a q]

/-- A strict upper ratio threshold, cleared of denominators. -/
lemma ratio_lt_iff (a n p q : ℕ) (hn : 0 < n) (hq : 0 < q) :
    ((a : ℚ) / (n : ℚ) < (p : ℚ) / (q : ℚ)) ↔ q * a < p * n := by
  rw [div_lt_div_iff (by exact_mod_cast hn) (by exact_mod_cast hq),
    ← Nat.cast_mul, ← Nat.cast_mul, Nat.cast_lt, Nat.mul_comm a q]

/-- C5: the type-detection function is exactly the fixed-priority cascade
described by the specification — `text` for empty or all-missing input,
then the strict 80 percent numeric threshold, the strict 60 percent
date-like threshold, the strict 0.1-unique-ratio and 20-unique-count
categorical test, and `text` otherwise. -/
theorem detectColumnType_eq_spec (B : JSBuiltins) (values : List Value) :
    detectColumnType B values = detectColumnTypeSpec B values := by
  unfold detectColumnType detectColumnTypeSpec
  rw [clean_filter_eq values]
  set clean := values.filter (fun v => ¬ v.isMissing) with hclean
  by_cases h0 : clean.length = 0
  · simp [h0]
  · have hpos : 0 < clean.length := Nat.pos_of_ne_zero h0
    have h1 := ratio_gt_iff ((clean.filter (fun v => (jsToNum v).isSome)).length)
      clean.length 4 5 hpos (by norm_num)
    have h2 := ratio_gt_iff
      ((clean.filter (fun v => B.dateValid v && dateLikeMatch (jsToString B v))).length)
      clean.length 3 5 hpos (by norm_num)
    have h3 := ratio_lt_iff (clean.dedup.length) clean.length 1 10 hpos (by norm_num)
    simp only [one_mul] at h3
    push_cast at h1 h2 h3
    simp only [if_neg h0, gt_iff_lt, h1, h2, h3]

/-- Updating an existing key in place puts the new value at that key. -/
lemma getVal_map_replace (r : Row) (c : String) (v : Value)
    (h : r.any (fun p => p.1 = c) = true) :
    getVal (r.map (fun p => if p.1 = c then (c, v) else p)) c = v := by
  induction r with
  | nil => simp at h
  | cons p t ih =>
    by_cases hp : p.1 = c
    · unfold getVal
      rw [List.map_cons, if_pos hp, List.find?_cons_of_pos _ (by simp)]
    · have ht : t.any (fun p => p.1 = c) = true := by
        simp only [List.any_cons, Bool.or_eq_true, decide_eq_true_eq] at h
        rcases h with h | h
        · exact absurd h hp
        · exact h
      unfold getVal at ih ⊢
      rw [List.map_cons, if_neg hp, List.find?_cons_of_neg _ (by simp [hp])]
      exact ih ht

/-- Updating an existing key in place leaves every other key unchanged. -/
lemma getVal_map_replace_other (r : Row) (c c2 : String) (v : Value) (h : c2 ≠ c) :
    getVal (r.map (fun p => if p.1 = c then (c, v) else p)) c2 = getVal r c2 := by
  induction r with
  | nil => rfl
  | cons p t ih =>
    by_cases hp : p.1 = c
    · have hne1 : ¬ c = c2 := fun hc => h hc.symm
      have hne2 : ¬ p.1 = c2 := fun hc => h (hp ▸ hc.symm ▸ rfl)
      unfold getVal at ih ⊢
      rw [List.map_cons, if_pos hp,
        List.find?_cons_of_neg _ (by simpa using hne1),
        List.find?_cons_of_neg _ (by simpa using hne2)]
      exact ih
    · by_cases hp2 : p.1 = c2
      · unfold getVal
        rw [List.map_cons, if_neg hp, List.find?_cons_of_pos _ (by simp [hp2]),
          List.find?_cons_of_pos _ (by simp [hp2])]
      · unfold getVal at ih ⊢
        rw [List.map_cons, if_neg hp, List.find?_cons_of_neg _ (by simp [hp2]),
          List.find?_cons_of_neg _ (by simp [hp2])]
        exact ih

/-- Appending a fresh key makes it retrievable. -/
lemma getVal_append_same (r : Row) (c : String) (v : Value)
    (h : r.any (fun p => p.1 = c) = false) :
    getVal (r ++ [(c, v)]) c = v := by
  induction r with
  | nil => unfold getVal; rw [List.nil_append, List.find?_cons_of_pos _ (by simp)]
  | cons p t ih =>
    simp only [List.any_cons, Bool.or_eq_false_iff, decide_eq_false_iff_not] at h
    unfold getVal at ih ⊢
    rw [List.cons_append, List.find?_cons_of_neg _ (by simp [h.1])]
    exact ih (by simpa using h.2)

/-- Appending a key leaves every other key unchanged. -/
lemma getVal_append_other (r : Row) (c c2 : String) (v : Value) (h : c2 ≠ c) :
    getVal (r ++ [(c, v)]) c2 = getVal r c2 := by
  induction r with
  | nil =>
    unfold getVal
    have hne1 : ¬ c = c2 := fun hc => h hc.symm
    rw [List.nil_append, List.find?_cons_of_neg _ (by simpa using hne1)]
  | cons p t ih =>
    by_cases hp2 : p.1 = c2
    · unfold getVal
      rw [List.cons_append, List.find?_cons_of_pos _ (by simp [hp2]),
        List.find?_cons_of_pos _ (by simp [hp2])]
    · unfold getVal at ih ⊢
      rw [List.cons_append, List.find?_cons_of_neg _ (by simp [hp2]),
        List.find?_cons_of_neg _ (by simp [hp2])]
      exact ih

/-- The object spread `{...row, [c]: v}` stores `v` at `c`. -/
lemma getVal_setCell_same (r : Row) (c : String) (v : Value) :
    getVal (setCell r c v) c = v := by
  unfold setCell
  by_cases h : r.any (fun p => p.1 = c) = true
  · rw [if_pos h]; exact getVal_map_replace r c v h
  · rw [if_neg h]; exact getVal_append_same r c v (Bool.eq_false_iff.mpr h)

/-- The object spread `{...row, [c]: v}` leaves other keys unchanged. -/
lemma getVal_setCell_other (r : Row) (c c2 : String) (v : Value) (h : c2 ≠ c) :
    getVal (setCell r c v) c2 = getVal r c2 := by
  unfold setCell
  by_cases hc : r.any (fun p => p.1 = c) = true
  · rw [if_pos hc]; exact getVal_map_replace_other r c c2 v h
  · rw [if_neg hc]; exact getVal_append_other r c c2 v h

/-- Row-level effect of the `fill` branch of `handle_missing`. -/
lemma applyOp_fill_rows (B : JSBuiltins) (d : Dataset) (op : CleaningOperation)
    (col : DataColumn)
    (htype : op.type = .handle_missing) (hmeth : op.method = "fill")
    (hcol : op.column ≠ "")
    (hfound : d.columns.find? (fun c => c.name = op.column) = some col) :
    (applyOperation B d op).rows =
      d.rows.map (fun row => setCell row op.column (jsOr (getVal row op.column) op.value)) := by
  unfold applyOperation
  simp only [htype, hmeth, hfound]
  rw [if_pos (⟨hcol, by decide⟩ : op.column ≠ "" ∧ ("fill" : String) ≠ "")]
  rw [if_neg (by decide : ¬ ("fill" : String) = "remove")]
  rw [if_pos trivial]

/-- Row-level effect of the `mean` branch of `handle_missing` on a
numeric-typed column. -/
lemma applyOp_mean_rows (B : JSBuiltins) (d : Dataset) (op : CleaningOperation)
    (col : DataColumn)
    (htype : op.type = .handle_missing) (hmeth : op.method = "mean")
    (hcol : op.column ≠ "")
    (hfound : d.columns.find? (fun c => c.name = op.column) = some col)
    (hnum : col.type = .numeric) :
    (applyOperation B d op).rows =
      d.rows.map (fun row => setCell row op.column
        (jsOr (getVal row op.column)
          (vnum (((col.values.filter (fun v => v ≠ vnull ∧ v ≠ vundef)).filterMap jsToNum).sum /
            ((((col.values.filter (fun v => v ≠ vnull ∧ v ≠ vundef)).filterMap jsToNum).length : ℕ) : ℚ))))) := by
  unfold applyOperation
  simp only [htype, hmeth, hfound]
  rw [if_pos (⟨hcol, by decide⟩ : op.column ≠ "" ∧ ("mean" : String) ≠ "")]
  rw [if_neg (by decide : ¬ ("mean" : String) = "remove")]
  rw [if_neg (by decide : ¬ ("mean" : String) = "fill")]
  rw [if_pos (⟨trivial, hnum⟩ : True ∧ col.type = DataType.numeric)]

/-- C2 (amended): `handle_missing` with `method=fill` sets to the literal
value exactly those cells of the target column that are JS-falsy — null,
undefined, empty string, the number 0, or false, since the source writes
`row[col] || value` — leaves truthy cells unchanged, and leaves every
other column of every row unchanged. -/
theorem handleMissing_fill_spec (B : JSBuiltins) (d : Dataset) (op : CleaningOperation)
    (htype : op.type = .handle_missing) (hmeth : op.method = "fill")
    (hcol : op.column ≠ "")
    (hfound : (d.columns.find? (fun c => c.name = op.column)).isSome = true) :
    (applyOperation B d op).rows.length = d.rows.length ∧
    ∀ i, i < d.rows.length →
      getVal ((applyOperation B d op).rows.getD i []) op.column =
        (if (getVal (d.rows.getD i []) op.column).truthy then getVal (d.rows.getD i []) op.column
         else op.value) ∧
      ∀ c2, c2 ≠ op.column →
        getVal ((applyOperation B d op).rows.getD i []) c2 = getVal (d.rows.getD i []) c2 := by
  obtain ⟨col, hcolv⟩ := Option.isSome_iff_exists.mp hfound
  have hrows := applyOp_fill_rows B d op col htype hmeth hcol hcolv
  refine ⟨by rw [hrows]; simp, ?_⟩
  intro i hi
  have hget : (applyOperation B d op).rows.getD i [] =
      setCell (d.rows.getD i []) op.column
        (jsOr (getVal (d.rows.getD i []) op.column) op.value) := by
    rw [hrows, List.getD_eq_getElem _ _ (by simpa using hi), List.getElem_map,
      List.getD_eq_getElem _ _ hi]
  refine ⟨?_, ?_⟩
  · rw [hget, getVal_setCell_same]; rfl
  · intro c2 hc2
    rw [hget, getVal_setCell_other _ _ _ _ hc2]

/-- C2 counterexample: on a dataset whose only cell is the defined,
non-missing number 0, `fill` with value 5 overwrites the cell — the claim
says a defined non-missing cell is left unchanged. -/
theorem fill_overwrites_zero_cex :
    getVal ((analyzeDataset defaultBuiltins fillRows0 "t").rows.getD 0 []) "a" = vnum 0 ∧
    (vnum 0).isMissing = false ∧
    getVal ((applyOperation defaultBuiltins (analyzeDataset defaultBuiltins fillRows0 "t")
        { type := .handle_missing, column := "a", method := "fill", value := vnum 5 }).rows.getD 0 [])
      "a" = vnum 5 := by
  decide

/-- Witness for `handleMissing_fill_spec` at a concrete dataset. -/
theorem handleMissing_fill_witness :
    (applyOperation defaultBuiltins (analyzeDataset defaultBuiltins fillRows0 "t")
      { type := .handle_missing, column := "a", method := "fill", value := vnum 7 }).rows.length =
      (analyzeDataset defaultBuiltins fillRows0 "t").rows.length :=
  (handleMissing_fill_spec defaultBuiltins _ _ rfl rfl (by decide) (by decide)).1

/-- C3 (amended): `handle_missing` with `method=mean` on a column not
typed numeric leaves the rows unchanged (silent no-op); on a numeric
column it computes the mean over the values that are neither null nor
undefined and coerce to a number under the JS `Number` coercion (so an
empty-string cell contributes 0), and writes that mean into exactly the
JS-falsy cells of the target column (null, undefined, empty string, 0,
false), leaving truthy cells and all other columns unchanged. -/
theorem handleMissing_mean_spec (B : JSBuiltins) (d : Dataset) (op : CleaningOperation)
    (col : DataColumn)
    (htype : op.type = .handle_missing) (hmeth : op.method = "mean")
    (hcol : op.column ≠ "")
    (hfound : d.columns.find? (fun c => c.name = op.column) = some col) :
    (col.type ≠ .numeric → (applyOperation B d op).rows = d.rows) ∧
    (col.type = .numeric →
      ((col.values.filter (fun v => v ≠ vnull ∧ v ≠ vundef)).filterMap jsToNum) ≠ [] →
      (applyOperation B d op).rows.length = d.rows.length ∧
      ∀ i, i < d.rows.length →
        getVal ((applyOperation B d op).rows.getD i []) op.column =
          (if (getVal (d.rows.getD i []) op.column).truthy then
            getVal (d.rows.getD i []) op.column
           else vnum
            (((col.values.filter (fun v => v ≠ vnull ∧ v ≠ vundef)).filterMap jsToNum).sum /
              ((((col.values.filter (fun v => v ≠ vnull ∧ v ≠ vundef)).filterMap jsToNum).length : ℕ) : ℚ))) ∧
        ∀ c2, c2 ≠ op.column →
          getVal ((applyOperation B d op).rows.getD i []) c2 = getVal (d.rows.getD i []) c2) := by
  constructor
  · intro hnum
    unfold applyOperation
    simp only [htype, hmeth, hfound]
    rw [if_pos (⟨hcol, by decide⟩ : op.column ≠ "" ∧ ("mean" : String) ≠ "")]
    rw [if_neg (by decide : ¬ ("mean" : String) = "remove")]
    rw [if_neg (by decide : ¬ ("mean" : String) = "fill")]
    rw [if_neg (fun hand => hnum hand.2)]
    rw [if_neg (by decide : ¬ ("mean" : String) = "mode")]
  · intro hnum _hne
    have hrows := applyOp_mean_rows B d op col htype hmeth hcol hfound hnum
    refine ⟨by rw [hrows]; simp, ?_⟩
    intro i hi
    have hget : (applyOperation B d op).rows.getD i [] =
        setCell (d.rows.getD i []) op.column
          (jsOr (getVal (d.rows.getD i []) op.column)
            (vnum (((col.values.filter (fun v => v ≠ vnull ∧ v ≠ vundef)).filterMap jsToNum).sum /
              ((((col.values.filter (fun v => v ≠ vnull ∧ v ≠ vundef)).filterMap jsToNum).length : ℕ) : ℚ)))) := by
      rw [hrows, List.getD_eq_getElem _ _ (by simpa using hi), List.getElem_map,
        List.getD_eq_getElem _ _ hi]
    refine ⟨?_, ?_⟩
    · rw [hget, getVal_setCell_same]; rfl
    · intro c2 hc2
      rw [hget, getVal_setCell_other _ _ _ _ hc2]

/-- C3 counterexample: a numeric column with values `["", 2, 4, 0]`.  The
claimed mean over the non-missing numeric values `[2, 4, 0]` is 2, but the
source's filter keeps the empty string (whose JS `Number` coercion is 0),
so the computed mean is 3/2; moreover the defined cell 0 is falsy and is
overwritten by the mean as well, while the claim says only missing cells
are filled. -/
theorem mean_includes_empty_string_cex :
    ((meanDataset.columns.headD
        { name := "", type := .text, values := [], missingCount := 0,
          uniqueCount := 0 }).values.filter (fun v => ¬ v.isMissing)).filterMap jsToNum =
      [2, 4, 0] ∧
    (applyOperation defaultBuiltins meanDataset
        { type := .handle_missing, column := "a", method := "mean", value := vnull }).rows =
      [[("a", vnum (3/2))], [("a", vnum 2)], [("a", vnum 4)], [("a", vnum (3/2))]] := by
  constructor
  · decide
  · rw [applyOp_mean_rows defaultBuiltins meanDataset _
      { name := "a", type := .numeric, values := [vstr "", vnum 2, vnum 4, vnum 0],
        missingCount := 1, uniqueCount := 4 } rfl rfl (by decide) (by decide) rfl]
    have hfm : ((([vstr "", vnum 2, vnum 4, vnum 0] : List Value).filter
        (fun v => !decide (v = vnull) && !decide (v = vundef))).filterMap jsToNum) =
        [0, 2, 4, 0] := by decide
    have hmean : (([0, 2, 4, 0] : List ℚ).sum / ((([0, 2, 4, 0] : List ℚ).length : ℕ) : ℚ)) =
        3/2 := by norm_num
    norm_num [hfm, hmean, meanDataset, meanRows, setCell, getVal, jsOr, Value.truthy,
      List.find?]

/-- Witness for `handleMissing_mean_spec`: `mean` on a text column is a
row-level no-op. -/
theorem handleMissing_mean_witness :
    (applyOperation defaultBuiltins textDataset
      { type := .handle_missing, column := "a", method := "mean", value := vnull }).rows =
      textDataset.rows :=
  (handleMissing_mean_spec defaultBuiltins _ _
    { name := "a", type := .text, values := [vstr "x"], missingCount := 0, uniqueCount := 1 }
    rfl rfl (by decide) (by decide)).1 (by decide)

/-- A row whose cells are all defined (no `undefined` value) is its own
`JSON.stringify` dedup key. -/
lemma jsonKey_eq_self (r : Row) (h : ∀ p ∈ r, p.2 ≠ vundef) : jsonKey r = r := by
  unfold jsonKey
  apply List.filter_eq_self.mpr
  intro p hp
  simpa using h p hp

/-- The seen-set dedup loop equals keep-first structural dedup of the
rows not yet seen, when every row is its own key. -/
lemma dedupRowsAux_eq (l : List Row) :
    ∀ seen : List Row, (∀ r ∈ l, jsonKey r = r) →
    dedupRowsAux seen l = dedupKeepFirst (l.filter (fun r => r ∉ seen)) := by
  induction l with
  | nil =>
    intro seen _
    rw [List.filter_nil, show dedupKeepFirst [] = [] from by rw [dedupKeepFirst]]
    rfl
  | cons r t ih =>
    intro seen hl
    have hr : jsonKey r = r := hl r (List.mem_cons_self r t)
    have ht : ∀ x ∈ t, jsonKey x = x := fun x hx => hl x (List.mem_cons_of_mem r hx)
    unfold dedupRowsAux
    rw [hr]
    by_cases hmem : r ∈ seen
    · rw [if_pos hmem, List.filter_cons_of_neg (by simpa using hmem)]
      exact ih seen ht
    · rw [if_neg hmem, List.filter_cons_of_pos (by simpa using hmem)]
      rw [ih (r :: seen) ht]
      have hff : (t.filter (fun x => x ∉ seen)).filter (fun x => x ≠ r) =
          t.filter (fun x => x ∉ r :: seen) := by
        rw [List.filter_filter]
        apply List.filter_congr
        intro x _
        simp [List.mem_cons, not_or, and_comm]
      rw [show dedupKeepFirst (r :: t.filter (fun x => x ∉ seen)) =
          r :: dedupKeepFirst ((t.filter (fun x => x ∉ seen)).filter (fun x => x ≠ r)) from by
        rw [dedupKeepFirst]]
      rw [hff]

/-- On rows without `undefined` cells, the source dedup is precisely
keep-first structural dedup. -/
lemma dedupRows_eq_keepFirst (l : List Row) (h : ∀ r ∈ l, ∀ p ∈ r, p.2 ≠ vundef) :
    dedupRows l = dedupKeepFirst l := by
  unfold dedupRows
  rw [dedupRowsAux_eq l [] (fun r hr => jsonKey_eq_self r (h r hr))]
  congr 1
  apply List.filter_eq_self.mpr
  intro x _
  simp

/-- Keep-first dedup preserves membership. -/
lemma mem_dedupKeepFirst (x : Row) (l : List Row) :
    x ∈ dedupKeepFirst l ↔ x ∈ l := by
  induction l using dedupKeepFirst.induct with
  | case1 => simp [dedupKeepFirst]
  | case2 r rs ih =>
    rw [dedupKeepFirst]
    simp only [List.mem_cons, ih, List.mem_filter]
    constructor
    · rintro (rfl | ⟨hx, _⟩)
      · exact Or.inl rfl
      · exact Or.inr hx
    · rintro (rfl | hx)
      · exact Or.inl rfl
      · by_cases hxr : x = r
        · exact Or.inl hxr
        · exact Or.inr ⟨hx, by simpa using hxr⟩

/-- Keep-first dedup yields a duplicate-free list. -/
lemma nodup_dedupKeepFirst (l : List Row) : (dedupKeepFirst l).Nodup := by
  induction l using dedupKeepFirst.induct with
  | case1 => simp [dedupKeepFirst]
  | case2 r rs ih =>
    rw [dedupKeepFirst]
    refine List.nodup_cons.mpr ⟨?_, ih⟩
    intro hmem
    have := (mem_dedupKeepFirst r _).mp hmem
    rw [List.mem_filter] at this
    simpa using this.2

/-- Keep-first dedup fixes duplicate-free lists. -/
lemma dedupKeepFirst_of_nodup (l : List Row) (h : l.Nodup) : dedupKeepFirst l = l := by
  induction l using dedupKeepFirst.induct with
  | case1 => rw [dedupKeepFirst]
  | case2 r rs ih =>
    rw [dedupKeepFirst]
    have hnr : rs.filter (fun x => x ≠ r) = rs := by
      apply List.filter_eq_self.mpr
      intro x hx
      have : x ≠ r := fun hxr => (List.nodup_cons.mp h).1 (hxr ▸ hx)
      simpa using this
    rw [hnr] at ih ⊢
    rw [ih (List.nodup_cons.mp h).2]

/-- Keep-first dedup and Mathlib `dedup` count the same distinct rows. -/
lemma length_dedupKeepFirst (l : List Row) :
    (dedupKeepFirst l).length = l.dedup.length := by
  have h1 : (dedupKeepFirst l).toFinset = l.toFinset := by
    apply Finset.ext
    intro x
    simp [List.mem_toFinset, mem_dedupKeepFirst]
  calc (dedupKeepFirst l).length
      = (dedupKeepFirst l).toFinset.card :=
        (List.toFinset_card_of_nodup (nodup_dedupKeepFirst l)).symm
    _ = l.toFinset.card := by rw [h1]
    _ = l.dedup.length := List.card_toFinset l

/-- The rows of a `remove_duplicates` application. -/
lemma applyOp_dedup_rows (B : JSBuiltins) (d : Dataset) (op : CleaningOperation)
    (htype : op.type = .remove_duplicates) :
    (applyOperation B d op).rows = dedupRows d.rows := by
  unfold applyOperation
  simp only [htype]

/-- `totalRows` of any operation result is the length of its row list. -/
lemma applyOp_totalRows (B : JSBuiltins) (d : Dataset) (op : CleaningOperation) :
    (applyOperation B d op).totalRows = (applyOperation B d op).rows.length := rfl

/-- C8: on a dataset whose stored cells carry no `undefined` value (§6:
the parser supplies scalar-or-null records) and whose `totalRows` matches
its row list, `remove_duplicates` performs keep-first structural full-row
deduplication, leaves no duplicate rows while keeping every distinct row,
reduces `totalRows` by exactly the number of duplicate rows, and is
idempotent on the row set. -/
theorem removeDuplicates_spec (B : JSBuiltins) (d : Dataset) (op : CleaningOperation)
    (htype : op.type = .remove_duplicates)
    (hundef : ∀ r ∈ d.rows, ∀ p ∈ r, p.2 ≠ vundef)
    (htot : d.totalRows = d.rows.length) :
    (applyOperation B d op).rows = dedupKeepFirst d.rows ∧
    (applyOperation B d op).rows.Nodup ∧
    (∀ r : Row, r ∈ (applyOperation B d op).rows ↔ r ∈ d.rows) ∧
    (applyOperation B d op).totalRows =
      d.totalRows - (d.rows.length - d.rows.dedup.length) ∧
    (applyOperation B (applyOperation B d op) op).rows = (applyOperation B d op).rows := by
  have h1 : (applyOperation B d op).rows = dedupKeepFirst d.rows := by
    rw [applyOp_dedup_rows B d op htype, dedupRows_eq_keepFirst d.rows hundef]
  refine ⟨h1, h1 ▸ nodup_dedupKeepFirst d.rows,
    fun r => h1 ▸ mem_dedupKeepFirst r d.rows, ?_, ?_⟩
  · have hle : d.rows.dedup.length ≤ d.rows.length :=
      d.rows.dedup_sublist.length_le
    rw [applyOp_totalRows, h1, length_dedupKeepFirst, htot]
    omega
  · have hundef2 : ∀ r ∈ (applyOperation B d op).rows, ∀ p ∈ r, p.2 ≠ vundef := by
      intro r hr
      exact hundef r ((h1 ▸ mem_dedupKeepFirst r d.rows).mp hr)
    rw [applyOp_dedup_rows B _ op htype, dedupRows_eq_keepFirst _ hundef2, h1,
      dedupKeepFirst_of_nodup _ (nodup_dedupKeepFirst d.rows)]

/-- Witness for `removeDuplicates_spec` on a concrete duplicate-bearing
dataset. -/
theorem removeDuplicates_witness :
    (applyOperation defaultBuiltins dupDataset
      { type := .remove_duplicates, column := "", method := "", value := vnull }).rows =
      dedupKeepFirst dupDataset.rows :=
  (removeDuplicates_spec defaultBuiltins dupDataset _ rfl (by decide) rfl).1

/-- A defined sort cell compares strictly before a missing one, whatever
the direction: the comparator returns -1 before any direction-sensitive
code runs. -/
lemma jsCompare_defined_missing (B : JSBuiltins) (dir : SortDir) (col : String)
    (a b : Row) (ha : ¬ missingAt col a) (hb : missingAt col b) :
    jsCompare B dir col a b = -1 := by
  unfold missingAt at ha hb
  have hne : ¬ getVal a col = getVal b col := by
    intro h
    exact ha (h ▸ hb)
  simp only [jsCompare]
  rw [if_neg hne, if_neg ha, if_pos hb]

/-- Hence the comparator relation holds from defined to missing. -/
lemma rowLE_defined_missing (B : JSBuiltins) (dir : SortDir) (col : String)
    (a b : Row) (ha : ¬ missingAt col a) (hb : missingAt col b) :
    rowLE B dir col a b = true := by
  unfold rowLE
  rw [jsCompare_defined_missing B dir col a b ha hb]
  decide

/-- If the comparator relation holds from a missing row, the other row is
missing too (the comparator returns 1 against any defined right side). -/
lemma missingAt_of_rowLE (B : JSBuiltins) (dir : SortDir) (col : String)
    (a b : Row) (ha : missingAt col a) (h : rowLE B dir col a b = true) :
    missingAt col b := by
  by_cases heq : getVal a col = getVal b col
  · unfold missingAt at ha ⊢
    rw [← heq]
    exact ha
  · exfalso
    unfold missingAt at ha
    unfold rowLE at h
    simp only [jsCompare] at h
    rw [if_neg heq, if_pos ha] at h
    norm_num at h

/-- Membership through comparator insertion. -/
lemma mem_ordInsertRow (le : Row → Row → Bool) (a x : Row) (l : List Row) :
    x ∈ ordInsertRow le a l ↔ x = a ∨ x ∈ l := by
  induction l with
  | nil => simp [ordInsertRow]
  | cons b t ih =>
    unfold ordInsertRow
    by_cases hle : le a b = true
    · rw [if_pos hle]
      simp only [List.mem_cons]
    · rw [if_neg hle]
      simp only [List.mem_cons, ih]
      tauto

/-- Inserting one row preserves the nulls-last pairwise invariant. -/
lemma pairwise_ordInsertRow (B : JSBuiltins) (dir : SortDir) (col : String)
    (a : Row) (l : List Row)
    (hl : l.Pairwise (fun x y => missingAt col x → missingAt col y)) :
    (ordInsertRow (rowLE B dir col) a l).Pairwise
      (fun x y => missingAt col x → missingAt col y) := by
  induction l with
  | nil => simp [ordInsertRow]
  | cons b t ih =>
    rw [List.pairwise_cons] at hl
    unfold ordInsertRow
    by_cases hle : rowLE B dir col a b = true
    · rw [if_pos hle]
      refine List.pairwise_cons.mpr ⟨?_, List.pairwise_cons.mpr hl⟩
      intro x hx hma
      have hmb : missingAt col b := missingAt_of_rowLE B dir col a b hma hle
      rcases List.mem_cons.mp hx with rfl | hx
      · exact hmb
      · exact hl.1 x hx hmb
    · rw [if_neg hle]
      refine List.pairwise_cons.mpr ⟨?_, ih hl.2⟩
      intro x hx hmb
      rcases (mem_ordInsertRow (rowLE B dir col) a x t).mp hx with rfl | hx
      · by_contra hma
        exact hle (rowLE_defined_missing B dir col x b hma hmb)
      · exact hl.1 x hx hmb

/-- The comparator sort always produces a nulls-last row order. -/
lemma pairwise_sortJS (B : JSBuiltins) (dir : SortDir) (col : String) (l : List Row) :
    (sortJS (rowLE B dir col) l).Pairwise
      (fun x y => missingAt col x → missingAt col y) := by
  induction l with
  | nil => simp [sortJS]
  | cons a t ih => exact pairwise_ordInsertRow B dir col a _ ih

/-- C4: with a nonempty sort column, the query-processor output puts
every row with a `null`/`undefined` sort cell after every row with a
defined sort cell, for ascending and descending direction alike. -/
theorem sort_nullsLast (B : JSBuiltins) (rows : List Row) (searchTerm : String)
    (rules : List FilterRule) (col : String) (dir : SortDir) (h : col ≠ "") :
    nullsLast col (processData B rows searchTerm rules col dir) := by
  unfold processData nullsLast
  rw [if_pos h]
  exact pairwise_sortJS B dir col _

/-- Witness for `sort_nullsLast` at a concrete two-row list. -/
theorem sort_nullsLast_witness :
    nullsLast "a" (processData defaultBuiltins [[("a", vnull)], [("a", vnum 1)]] "" [] "a" .asc) :=
  sort_nullsLast defaultBuiltins [[("a", vnull)], [("a", vnum 1)]] "" [] "a" .asc (by decide)

/-- Monotone access into a sorted list of rationals. -/
lemma sorted_getD_mono (s : List ℚ) (hs : s.Sorted (· ≤ ·)) (i j : ℕ) (hij : i ≤ j)
    (hj : j < s.length) : s.getD i 0 ≤ s.getD j 0 := by
  rw [List.getD_eq_getElem s 0 (lt_of_le_of_lt hij hj), List.getD_eq_getElem s 0 hj]
  exact hs.rel_get_of_le (Fin.mk_le_mk.mpr hij)

/-- The head of a sorted list bounds every member from below. -/
lemma sorted_head_le (s : List ℚ) (hs : s.Sorted (· ≤ ·)) (x : ℚ) (hx : x ∈ s) :
    s.getD 0 0 ≤ x := by
  obtain ⟨i, rfl⟩ := List.mem_iff_get.mp hx
  rw [List.getD_eq_getElem s 0 (lt_of_le_of_lt (Nat.zero_le i.1) i.2)]
  exact hs.rel_get_of_le (Fin.mk_le_mk.mpr (Nat.zero_le i.1))

/-- The last element of a sorted list bounds every member from above. -/
lemma le_sorted_last (s : List ℚ) (hs : s.Sorted (· ≤ ·)) (x : ℚ) (hx : x ∈ s) :
    x ≤ s.getD (s.length - 1) 0 := by
  obtain ⟨i, rfl⟩ := List.mem_iff_get.mp hx
  have hi := i.2
  have hl : s.length - 1 < s.length := by omega
  rw [List.getD_eq_getElem s 0 hl]
  exact hs.rel_get_of_le (Fin.mk_le_mk.mpr (by omega))

/-- A list sum is at most the length times an upper bound. -/
lemma list_sum_le_length_mul (l : List ℚ) (M : ℚ) (h : ∀ x ∈ l, x ≤ M) :
    l.sum ≤ (l.length : ℚ) * M := by
  induction l with
  | nil => simp
  | cons a t ih =>
    have ha := h a (List.mem_cons_self a t)
    have ht := ih (fun x hx => h x (List.mem_cons_of_mem a hx))
    simp only [List.sum_cons, List.length_cons]
    push_cast
    linarith

/-- A list sum is at least the length times a lower bound. -/
lemma length_mul_le_list_sum (l : List ℚ) (m : ℚ) (h : ∀ x ∈ l, m ≤ x) :
    (l.length : ℚ) * m ≤ l.sum := by
  induction l with
  | nil => simp
  | cons a t ih =>
    have ha := h a (List.mem_cons_self a t)
    have ht := ih (fun x hx => h x (List.mem_cons_of_mem a hx))
    simp only [List.sum_cons, List.length_cons]
    push_cast
    linarith

/-- C6: `calculateBasicStats` returns `null` exactly for the empty input,
and on nonempty input the returned record satisfies
`min ≤ median ≤ max` and `min ≤ mean ≤ max`. -/
theorem calculateBasicStats_spec (values : List ℚ) :
    (calculateBasicStats values = none ↔ values = []) ∧
    (∀ s, calculateBasicStats values = some s →
      s.min ≤ s.median ∧ s.median ≤ s.max ∧ s.min ≤ s.mean ∧ s.mean ≤ s.max) := by
  by_cases hv : values.length = 0
  · have hnil : values = [] := List.length_eq_zero.mp hv
    subst hnil
    refine ⟨⟨fun _ => rfl, fun _ => by unfold calculateBasicStats; simp⟩, ?_⟩
    intro s hsome
    unfold calculateBasicStats at hsome
    simp at hsome
  · have hne : values ≠ [] := fun h => hv (by simp [h])
    refine ⟨⟨?_, fun h => absurd h hne⟩, ?_⟩
    · intro hnone
      unfold calculateBasicStats at hnone
      rw [if_neg hv] at hnone
      simp at hnone
    · intro s hsome
      unfold calculateBasicStats at hsome
      rw [if_neg hv] at hsome
      have hrec := Option.some.inj hsome
      subst hrec
      dsimp only
      have hsort : (List.insertionSort (· ≤ ·) values).Sorted (· ≤ ·) :=
        List.sorted_insertionSort _ values
      have hperm : List.Perm (List.insertionSort (· ≤ ·) values) values :=
        List.perm_insertionSort _ values
      have hlen : (List.insertionSort (· ≤ ·) values).length = values.length :=
        hperm.length_eq
      set s0 := List.insertionSort (· ≤ ·) values with hs0
      have hpos : 0 < s0.length := by
        rw [hlen]
        exact Nat.pos_of_ne_zero hv
      have hqpos : (0 : ℚ) < (values.length : ℚ) := by
        exact_mod_cast Nat.pos_of_ne_zero hv
      have hminx : ∀ x ∈ values, s0.getD 0 0 ≤ x := fun x hx =>
        sorted_head_le s0 hsort x (hperm.mem_iff.mpr hx)
      have hmaxx : ∀ x ∈ values, x ≤ s0.getD (s0.length - 1) 0 := fun x hx =>
        le_sorted_last s0 hsort x (hperm.mem_iff.mpr hx)
      have hmedian : s0.getD 0 0 ≤
          (if s0.length % 2 = 0 then
            (s0.getD (s0.length / 2 - 1) 0 + s0.getD (s0.length / 2) 0) / 2
           else s0.getD (s0.length / 2) 0) ∧
          (if s0.length % 2 = 0 then
            (s0.getD (s0.length / 2 - 1) 0 + s0.getD (s0.length / 2) 0) / 2
           else s0.getD (s0.length / 2) 0) ≤ s0.getD (s0.length - 1) 0 := by
        split_ifs with hpar
        · have h1 : s0.getD 0 0 ≤ s0.getD (s0.length / 2 - 1) 0 :=
            sorted_getD_mono s0 hsort 0 (s0.length / 2 - 1) (Nat.zero_le _) (by omega)
          have h2 : s0.getD 0 0 ≤ s0.getD (s0.length / 2) 0 :=
            sorted_getD_mono s0 hsort 0 (s0.length / 2) (Nat.zero_le _) (by omega)
          have h3 : s0.getD (s0.length / 2 - 1) 0 ≤ s0.getD (s0.length - 1) 0 :=
            sorted_getD_mono s0 hsort _ _ (by omega) (by omega)
          have h4 : s0.getD (s0.length / 2) 0 ≤ s0.getD (s0.length - 1) 0 :=
            sorted_getD_mono s0 hsort _ _ (by omega) (by omega)
          constructor <;> linarith
        · exact ⟨sorted_getD_mono s0 hsort 0 (s0.length / 2) (Nat.zero_le _) (by omega),
            sorted_getD_mono s0 hsort (s0.length / 2) (s0.length - 1) (by omega) (by omega)⟩
      have hsum_lo : (values.length : ℚ) * s0.getD 0 0 ≤ values.sum :=
        length_mul_le_list_sum values _ hminx
      have hsum_hi : values.sum ≤ (values.length : ℚ) * s0.getD (s0.length - 1) 0 :=
        list_sum_le_length_mul values _ hmaxx
      refine ⟨hmedian.1, hmedian.2, ?_, ?_⟩
      · rw [le_div_iff hqpos]
        linarith
      · rw [div_le_iff hqpos]
        linarith

/-- Witness for `calculateBasicStats_spec`: the empty input yields `null`. -/
theorem calculateBasicStats_witness : calculateBasicStats ([] : List ℚ) = none :=
  (calculateBasicStats_spec []).1.mpr rfl

/-- A list sum as a range-indexed finite sum. -/
lemma listSum_eq_range (l : List ℚ) :
    l.sum = ∑ i ∈ Finset.range l.length, l.getD i 0 := by
  induction l with
  | nil => simp
  | cons a t ih =>
    rw [List.sum_cons, List.length_cons, Finset.sum_range_succ']
    simp only [List.getD_cons_succ, List.getD_cons_zero]
    rw [← ih]
    ring

/-- Default-0 access commutes with mapping a zero-preserving function. -/
lemma getD_map_pair (f : ℚ × ℚ → ℚ) (hf : f (0, 0) = 0) (ps : List (ℚ × ℚ)) :
    ∀ i : ℕ, (ps.map f).getD i 0 = f (ps.getD i (0, 0)) := by
  induction ps with
  | nil =>
    intro i
    simp only [List.map_nil, List.getD_nil]
    exact hf.symm
  | cons p t ih =>
    intro i
    cases i with
    | zero => simp
    | succ j => simpa using ih j

/-- `sum1` as an indexed sum. -/
lemma pairSumX_eq (ps : List (ℚ × ℚ)) :
    pairSumX ps = ∑ i ∈ Finset.range ps.length, (ps.getD i (0, 0)).1 := by
  unfold pairSumX
  rw [listSum_eq_range, List.length_map]
  exact Finset.sum_congr rfl (fun i _ => getD_map_pair Prod.fst rfl ps i)

/-- `sum2` as an indexed sum. -/
lemma pairSumY_eq (ps : List (ℚ × ℚ)) :
    pairSumY ps = ∑ i ∈ Finset.range ps.length, (ps.getD i (0, 0)).2 := by
  unfold pairSumY
  rw [listSum_eq_range, List.length_map]
  exact Finset.sum_congr rfl (fun i _ => getD_map_pair Prod.snd rfl ps i)

/-- `sum1Sq` as an indexed sum. -/
lemma pairSumXX_eq (ps : List (ℚ × ℚ)) :
    pairSumXX ps =
      ∑ i ∈ Finset.range ps.length, (ps.getD i (0, 0)).1 * (ps.getD i (0, 0)).1 := by
  unfold pairSumXX
  rw [listSum_eq_range, List.length_map]
  exact Finset.sum_congr rfl
    (fun i _ => getD_map_pair (fun p => p.1 * p.1) (by norm_num) ps i)

/-- `sum2Sq` as an indexed sum. -/
lemma pairSumYY_eq (ps : List (ℚ × ℚ)) :
    pairSumYY ps =
      ∑ i ∈ Finset.range ps.length, (ps.getD i (0, 0)).2 * (ps.getD i (0, 0)).2 := by
  unfold pairSumYY
  rw [listSum_eq_range, List.length_map]
  exact Finset.sum_congr rfl
    (fun i _ => getD_map_pair (fun p => p.2 * p.2) (by norm_num) ps i)

/-- `sumProducts` as an indexed sum. -/
lemma pairSumXY_eq (ps : List (ℚ × ℚ)) :
    pairSumXY ps =
      ∑ i ∈ Finset.range ps.length, (ps.getD i (0, 0)).1 * (ps.getD i (0, 0)).2 := by
  unfold pairSumXY
  rw [listSum_eq_range, List.length_map]
  exact Finset.sum_congr rfl
    (fun i _ => getD_map_pair (fun p => p.1 * p.2) (by norm_num) ps i)

/-- Centred cross sums expand to the Pearson aggregates. -/
lemma sum_shift_prod (n : ℕ) (f g : ℕ → ℚ) :
    ∑ i ∈ Finset.range n, (((n : ℚ) * f i - ∑ j ∈ Finset.range n, f j) *
        ((n : ℚ) * g i - ∑ j ∈ Finset.range n, g j)) =
      (n : ℚ) * ((n : ℚ) * (∑ i ∈ Finset.range n, f i * g i) -
        (∑ i ∈ Finset.range n, f i) * (∑ i ∈ Finset.range n, g i)) := by
  have hexp : ∀ i ∈ Finset.range n,
      ((n : ℚ) * f i - ∑ j ∈ Finset.range n, f j) *
        ((n : ℚ) * g i - ∑ j ∈ Finset.range n, g j) =
      (n : ℚ) ^ 2 * (f i * g i) - ((n : ℚ) * (∑ j ∈ Finset.range n, g j)) * f i -
        ((n : ℚ) * (∑ j ∈ Finset.range n, f j)) * g i +
        (∑ j ∈ Finset.range n, f j) * (∑ j ∈ Finset.range n, g j) := by
    intro i _
    ring
  rw [Finset.sum_congr rfl hexp, Finset.sum_add_distrib, Finset.sum_sub_distrib,
    Finset.sum_sub_distrib, ← Finset.mul_sum, ← Finset.mul_sum, ← Finset.mul_sum,
    Finset.sum_const, Finset.card_range, nsmul_eq_mul]
  ring

/-- Cauchy-Schwarz in Pearson-aggregate form over an index range. -/
lemma cs_range (n : ℕ) (f g : ℕ → ℚ) :
    ((n : ℚ) * (∑ i ∈ Finset.range n, f i * g i) -
      (∑ i ∈ Finset.range n, f i) * (∑ i ∈ Finset.range n, g i)) ^ 2 ≤
    ((n : ℚ) * (∑ i ∈ Finset.range n, f i * f i) -
      (∑ i ∈ Finset.range n, f i) * (∑ i ∈ Finset.range n, f i)) *
    ((n : ℚ) * (∑ i ∈ Finset.range n, g i * g i) -
      (∑ i ∈ Finset.range n, g i) * (∑ i ∈ Finset.range n, g i)) := by
  rcases Nat.eq_zero_or_pos n with rfl | hpos
  · simp
  · have hCS := Finset.sum_mul_sq_le_sq_mul_sq (Finset.range n)
      (fun i => (n : ℚ) * f i - ∑ j ∈ Finset.range n, f j)
      (fun i => (n : ℚ) * g i - ∑ j ∈ Finset.range n, g j)
    have esq : ∀ (F : ℕ → ℚ),
        ∑ i ∈ Finset.range n, F i ^ 2 = ∑ i ∈ Finset.range n, F i * F i :=
      fun F => Finset.sum_congr rfl (fun i _ => sq (F i))
    rw [esq, esq, sum_shift_prod n f g, sum_shift_prod n f f, sum_shift_prod n g g] at hCS
    have hn2 : (0 : ℚ) < (n : ℚ) ^ 2 := by positivity
    refine le_of_mul_le_mul_left ?_ hn2
    calc (n : ℚ) ^ 2 *
          (((n : ℚ) * (∑ i ∈ Finset.range n, f i * g i) -
            (∑ i ∈ Finset.range n, f i) * (∑ i ∈ Finset.range n, g i)) ^ 2) =
        ((n : ℚ) * ((n : ℚ) * (∑ i ∈ Finset.range n, f i * g i) -
          (∑ i ∈ Finset.range n, f i) * (∑ i ∈ Finset.range n, g i))) ^ 2 := by ring
      _ ≤ ((n : ℚ) * ((n : ℚ) * (∑ i ∈ Finset.range n, f i * f i) -
            (∑ i ∈ Finset.range n, f i) * (∑ i ∈ Finset.range n, f i))) *
          ((n : ℚ) * ((n : ℚ) * (∑ i ∈ Finset.range n, g i * g i) -
            (∑ i ∈ Finset.range n, g i) * (∑ i ∈ Finset.range n, g i))) := hCS
      _ = (n : ℚ) ^ 2 *
          (((n : ℚ) * (∑ i ∈ Finset.range n, f i * f i) -
            (∑ i ∈ Finset.range n, f i) * (∑ i ∈ Finset.range n, f i)) *
          ((n : ℚ) * (∑ i ∈ Finset.range n, g i * g i) -
            (∑ i ∈ Finset.range n, g i) * (∑ i ∈ Finset.range n, g i))) := by ring

/-- The variance-style aggregate is nonnegative. -/
lemma a_nonneg_range (n : ℕ) (f : ℕ → ℚ) :
    0 ≤ (n : ℚ) * (∑ i ∈ Finset.range n, f i * f i) -
      (∑ i ∈ Finset.range n, f i) * (∑ i ∈ Finset.range n, f i) := by
  rcases Nat.eq_zero_or_pos n with rfl | hpos
  · simp
  · have hnn : 0 ≤ ∑ i ∈ Finset.range n,
        (((n : ℚ) * f i - ∑ j ∈ Finset.range n, f j) *
          ((n : ℚ) * f i - ∑ j ∈ Finset.range n, f j)) :=
      Finset.sum_nonneg (fun i _ => mul_self_nonneg _)
    rw [sum_shift_prod n f f] at hnn
    have hn : (0 : ℚ) < (n : ℚ) := by exact_mod_cast hpos
    nlinarith [hnn, hn]

/-- Cauchy-Schwarz for the Pearson aggregates of a pair list: the squared
numerator is at most the squared denominator. -/
lemma pearson_cauchySchwarz (ps : List (ℚ × ℚ)) :
    pearsonNum ps ^ 2 ≤ pearsonDenSq ps := by
  unfold pearsonNum pearsonDenSq
  rw [pairSumXY_eq, pairSumX_eq, pairSumY_eq, pairSumXX_eq, pairSumYY_eq]
  exact cs_range ps.length (fun i => (ps.getD i (0, 0)).1) (fun i => (ps.getD i (0, 0)).2)

/-- The first factor of the squared denominator is nonnegative. -/
lemma pearsonA_nonneg (ps : List (ℚ × ℚ)) :
    0 ≤ (ps.length : ℚ) * pairSumXX ps - pairSumX ps * pairSumX ps := by
  rw [pairSumXX_eq, pairSumX_eq]
  exact a_nonneg_range ps.length (fun i => (ps.getD i (0, 0)).1)

/-- The second factor of the squared denominator is nonnegative. -/
lemma pearsonB_nonneg (ps : List (ℚ × ℚ)) :
    0 ≤ (ps.length : ℚ) * pairSumYY ps - pairSumY ps * pairSumY ps := by
  rw [pairSumYY_eq, pairSumY_eq]
  exact a_nonneg_range ps.length (fun i => (ps.getD i (0, 0)).2)

/-- The squared Pearson denominator is nonnegative. -/
lemma pearsonDenSq_nonneg (ps : List (ℚ × ℚ)) : 0 ≤ pearsonDenSq ps :=
  mul_nonneg (pearsonA_nonneg ps) (pearsonB_nonneg ps)

/-- For equal-length inputs, the aggregate sums of `calculateCorrelation`
are the Pearson aggregates of the zipped pair list. -/
lemma corrQ_zip (x y : List ℚ) (hlen : x.length = y.length) :
    corrNumQ x y = pearsonNum (x.zip y) ∧ corrDenSqQ x y = pearsonDenSq (x.zip y) := by
  have hzlen : (x.zip y).length = x.length := by
    rw [List.length_zip, hlen, min_self]
  have hfst : (x.zip y).map Prod.fst = x := List.map_fst_zip x y (le_of_eq hlen)
  have hsnd : (x.zip y).map Prod.snd = y := List.map_snd_zip x y (le_of_eq hlen.symm)
  have hxx : ((x.zip y).map (fun p => p.1 * p.1)).sum = (x.map (fun v => v * v)).sum := by
    rw [show (fun p : ℚ × ℚ => p.1 * p.1) = (fun a : ℚ => a * a) ∘ Prod.fst from rfl,
      ← List.map_map, hfst]
  have hyy : ((x.zip y).map (fun p => p.2 * p.2)).sum = (y.map (fun v => v * v)).sum := by
    rw [show (fun p : ℚ × ℚ => p.2 * p.2) = (fun a : ℚ => a * a) ∘ Prod.snd from rfl,
      ← List.map_map, hsnd]
  constructor
  · unfold corrNumQ pearsonNum pairSumXY pairSumX pairSumY
    rw [hzlen, hfst, hsnd]
  · unfold corrDenSqQ pearsonDenSq pairSumXX pairSumYY pairSumX pairSumY
    rw [hzlen, hfst, hsnd, hxx, hyy]

/-- `calculateCorrelation` in terms of the named numerator and squared
denominator. -/
lemma calculateCorrelation_eq (x y : List ℚ) :
    calculateCorrelation x y =
      if x.length ≠ y.length ∨ x.length = 0 then (0 : ℝ)
      else if Real.sqrt ((corrDenSqQ x y : ℚ) : ℝ) = 0 then 0
      else ((corrNumQ x y : ℚ) : ℝ) / Real.sqrt ((corrDenSqQ x y : ℚ) : ℝ) := by
  unfold calculateCorrelation corrNumQ corrDenSqQ
  rfl

/-- C7: `calculateCorrelation` returns 0 when the lengths differ, when
either input is empty, or when the Pearson denominator vanishes; in every
other case it is the Pearson coefficient from the aggregate sums; and the
returned value always lies in the closed interval from -1 to 1. -/
theorem calculateCorrelation_spec (x y : List ℚ) :
    (x.length ≠ y.length ∨ x = [] → calculateCorrelation x y = 0) ∧
    (corrDenSqQ x y = 0 → calculateCorrelation x y = 0) ∧
    (x.length = y.length → x ≠ [] → corrDenSqQ x y ≠ 0 →
      calculateCorrelation x y =
        ((corrNumQ x y : ℚ) : ℝ) / Real.sqrt ((corrDenSqQ x y : ℚ) : ℝ)) ∧
    (-1 ≤ calculateCorrelation x y ∧ calculateCorrelation x y ≤ 1) := by
  rw [calculateCorrelation_eq]
  by_cases h0 : x.length ≠ y.length ∨ x.length = 0
  · rw [if_pos h0]
    refine ⟨fun _ => rfl, fun _ => rfl, ?_, by norm_num⟩
    intro hlen hne _
    exfalso
    rcases h0 with h0 | h0
    · exact h0 hlen
    · exact hne (List.length_eq_zero.mp h0)
  · rw [if_neg h0]
    push_neg at h0
    obtain ⟨hlen, hne0⟩ := h0
    have hzip := corrQ_zip x y hlen
    have hdnn : (0 : ℚ) ≤ corrDenSqQ x y := by
      rw [hzip.2]
      exact pearsonDenSq_nonneg (x.zip y)
    have hcs : corrNumQ x y ^ 2 ≤ corrDenSqQ x y := by
      rw [hzip.1, hzip.2]
      exact pearson_cauchySchwarz (x.zip y)
    by_cases hd : Real.sqrt ((corrDenSqQ x y : ℚ) : ℝ) = 0
    · rw [if_pos hd]
      exact ⟨fun _ => rfl, fun _ => rfl, fun _ _ h => absurd
        (by exact_mod_cast le_antisymm (Real.sqrt_eq_zero'.mp hd) (by exact_mod_cast hdnn)) h,
        by norm_num⟩
    · rw [if_neg hd]
      have hdpos : (0 : ℝ) < ((corrDenSqQ x y : ℚ) : ℝ) := by
        rcases lt_or_eq_of_le (show (0 : ℝ) ≤ ((corrDenSqQ x y : ℚ) : ℝ) by exact_mod_cast hdnn)
          with h | h
        · exact h
        · exact absurd (by rw [← h, Real.sqrt_zero] : Real.sqrt ((corrDenSqQ x y : ℚ) : ℝ) = 0) hd
      have hsq : (0 : ℝ) < Real.sqrt ((corrDenSqQ x y : ℚ) : ℝ) := Real.sqrt_pos.mpr hdpos
      have habs : |((corrNumQ x y : ℚ) : ℝ)| ≤ Real.sqrt ((corrDenSqQ x y : ℚ) : ℝ) :=
        Real.abs_le_sqrt (by exact_mod_cast hcs)
      have hchain : |((corrNumQ x y : ℚ) : ℝ) / Real.sqrt ((corrDenSqQ x y : ℚ) : ℝ)| ≤ 1 := by
        rw [abs_div, abs_of_pos hsq]
        exact (div_le_one hsq).mpr habs
      have hpair := abs_le.mp hchain
      refine ⟨?_, ?_, fun _ _ _ => rfl, hpair.1, hpair.2⟩
      · intro h
        rcases h with h | h
        · exact absurd hlen h
        · exact absurd (by rw [h] : x.length = ([] : List ℚ).length) (by simpa using hne0)
      · intro h
        exact absurd h (fun hc => hd (by rw [hc]; simp))

/-- Witness for `calculateCorrelation_spec`: a length mismatch yields 0. -/
theorem calculateCorrelation_witness :
    calculateCorrelation [1, 2, 3] [1, 2] = 0 :=
  (calculateCorrelation_spec [1, 2, 3] [1, 2]).1 (Or.inl (by decide))

/-- C1 (amended): for a column pair with strictly more than 10 valid
paired observations and a nonvanishing Pearson denominator, the
correlation scan emits an insight exactly when the absolute Pearson
coefficient exceeds 0.7, with confidence `|r| * 100` and the two column
names attached; and the insight generator's correlation portion is the
scan applied to every pair of numeric columns in loop order. -/
theorem corrInsight_spec (rows : List Row) (c1 c2 : String)
    (hlen : (corrPairs rows c1 c2).length > 10)
    (hden : pearsonDenSq (corrPairs rows c1 c2) ≠ 0) :
    ((corrInsightFor rows c1 c2).isSome ↔
      |((pearsonNum (corrPairs rows c1 c2) : ℚ) : ℝ) /
        Real.sqrt ((pearsonDenSq (corrPairs rows c1 c2) : ℚ) : ℝ)| > 7/10) ∧
    (∀ ins, corrInsightFor rows c1 c2 = some ins →
      ins.type = .correlation ∧
      ins.confidence =
        |((pearsonNum (corrPairs rows c1 c2) : ℚ) : ℝ) /
          Real.sqrt ((pearsonDenSq (corrPairs rows c1 c2) : ℚ) : ℝ)| * 100 ∧
      ins.columns = [c1, c2]) ∧
    (∀ d : Dataset, 2 ≤ (numericColumns d).length →
      correlationInsights d =
        (columnPairs (numericColumns d)).filterMap
          (fun p => corrInsightFor d.rows p.1.name p.2.name)) := by
  have hd0 : (0 : ℚ) ≤ pearsonDenSq (corrPairs rows c1 c2) :=
    pearsonDenSq_nonneg (corrPairs rows c1 c2)
  have hdpos : (0 : ℝ) < ((pearsonDenSq (corrPairs rows c1 c2) : ℚ) : ℝ) := by
    have : (0 : ℚ) < pearsonDenSq (corrPairs rows c1 c2) := lt_of_le_of_ne hd0 (Ne.symm hden)
    exact_mod_cast this
  have hsqne : Real.sqrt ((pearsonDenSq (corrPairs rows c1 c2) : ℚ) : ℝ) ≠ 0 :=
    ne_of_gt (Real.sqrt_pos.mpr hdpos)
  have hmain : corrInsightFor rows c1 c2 =
      if |((pearsonNum (corrPairs rows c1 c2) : ℚ) : ℝ) /
          Real.sqrt ((pearsonDenSq (corrPairs rows c1 c2) : ℚ) : ℝ)| > 7/10 then
        some { type := .correlation,
               confidence :=
                 |((pearsonNum (corrPairs rows c1 c2) : ℚ) : ℝ) /
                   Real.sqrt ((pearsonDenSq (corrPairs rows c1 c2) : ℚ) : ℝ)| * 100,
               columns := [c1, c2],
               correlation :=
                 ((pearsonNum (corrPairs rows c1 c2) : ℚ) : ℝ) /
                   Real.sqrt ((pearsonDenSq (corrPairs rows c1 c2) : ℚ) : ℝ) }
      else none := by
    unfold corrInsightFor
    rw [if_pos hlen, if_pos hsqne]
  refine ⟨?_, ?_, ?_⟩
  · rw [hmain]
    by_cases hc : |((pearsonNum (corrPairs rows c1 c2) : ℚ) : ℝ) /
        Real.sqrt ((pearsonDenSq (corrPairs rows c1 c2) : ℚ) : ℝ)| > 7/10
    · rw [if_pos hc]
      simpa using hc
    · rw [if_neg hc]
      simpa using hc
  · intro ins hins
    rw [hmain] at hins
    by_cases hc : |((pearsonNum (corrPairs rows c1 c2) : ℚ) : ℝ) /
        Real.sqrt ((pearsonDenSq (corrPairs rows c1 c2) : ℚ) : ℝ)| > 7/10
    · rw [if_pos hc] at hins
      have := Option.some.inj hins
      subst this
      exact ⟨rfl, rfl, rfl⟩
    · rw [if_neg hc] at hins
      exact absurd hins (by simp)
  · intro d hd2
    unfold correlationInsights
    rw [if_pos hd2]

/-- C1 counterexample: ten rows with `y = 2 x` give exactly 10 valid
pairs with perfect correlation (the squared coefficient condition
`num^2 * 100 > 49 * denSq` says the absolute coefficient exceeds 0.7),
yet the scan emits nothing, because the source requires strictly more
than 10 pairs where the claim asks for at least 10. -/
theorem corrInsight_at_ten_cex :
    (corrPairs corrRows10 "x" "y").length = 10 ∧
    pearsonDenSq (corrPairs corrRows10 "x" "y") ≠ 0 ∧
    pearsonNum (corrPairs corrRows10 "x" "y") ^ 2 * 100 >
      49 * pearsonDenSq (corrPairs corrRows10 "x" "y") ∧
    correlationInsights corrDataset = [] := by
  have hpairs : corrPairs corrRows10 "x" "y" =
      [(1, 2), (2, 4), (3, 6), (4, 8), (5, 10), (6, 12), (7, 14), (8, 16), (9, 18),
        (10, 20)] := by decide
  refine ⟨by rw [hpairs]; rfl, ?_, ?_, ?_⟩
  · rw [hpairs]
    norm_num [pearsonDenSq, pairSumXX, pairSumX, pairSumYY, pairSumY]
  · rw [hpairs]
    norm_num [pearsonNum, pearsonDenSq, pairSumXY, pairSumX, pairSumY, pairSumXX, pairSumYY]
  · have hnone : ∀ c1 c2 : String, corrInsightFor corrDataset.rows c1 c2 = none := by
      intro c1 c2
      have h1 : (corrPairs corrDataset.rows c1 c2).length ≤ corrDataset.rows.length :=
        List.length_filterMap_le _ _
      have h2 : corrDataset.rows.length = 10 := rfl
      unfold corrInsightFor
      rw [if_neg (by omega)]
    unfold correlationInsights
    rw [if_pos (by decide : 2 ≤ (numericColumns corrDataset).length)]
    exact List.filterMap_eq_nil_iff.mpr (fun p _ => hnone p.1.name p.2.name)

/-- Witness for `corrInsight_spec` at eleven perfectly correlated rows. -/
theorem corrInsight_witness :
    (corrInsightFor corrRows11 "x" "y").isSome ↔
      |((pearsonNum (corrPairs corrRows11 "x" "y") : ℚ) : ℝ) /
        Real.sqrt ((pearsonDenSq (corrPairs corrRows11 "x" "y") : ℚ) : ℝ)| > 7/10 :=
  (corrInsight_spec corrRows11 "x" "y" (by decide)
    (by rw [show corrPairs corrRows11 "x" "y" =
        [(1, 2), (2, 4), (3, 6), (4, 8), (5, 10), (6, 12), (7, 14), (8, 16), (9, 18),
          (10, 20), (11, 22)] from by decide]
        norm_num [pearsonDenSq, pairSumXX, pairSumX, pairSumYY, pairSumY])).1
